import Mathlib

/-!
Verification development for the client-side analytics core of the
sports-analytics-platform frontend (a React/TypeScript sports-betting
analytics app).

The repository contains three coexisting variants of the parlay-builder
page, all exercised by the specification:

* `src/frontend/src/pages/BetsPage.tsx` — exhaustive enumeration of leg
  combinations, ranked by expected value plus a correlation bonus
  (embedded below in namespace `BetsTsx`);
* `src/unnamed/part_008` — exhaustive enumeration with a per-strategy
  argmax pick (namespace `Part008`);
* `src/unnamed/part_009` — greedy top-unique-player selection per
  strategy, a custom-parlay builder and a bankroll ledger
  (namespace `Part009`).

Numbers are embedded as `ℚ` (the JS code performs only field arithmetic,
`Math.max`, `Math.abs` and `Math.round` on them), strings as `String`,
and optional/missing fields as `Option ℚ`.  JavaScript truthiness on
numbers (`x || d`, where `undefined`, `0` and `NaN` are falsy) is
embedded by `jsOr`, and `Math.round` by `jsRound` (`Math.round x` is
`⌊x + 1/2⌋` for every finite JS number).
-/

-- The Batteries `Rat` arithmetic operations are marked `@[irreducible]`, which
-- blocks `decide`-style evaluation of the embedded computations on concrete
-- inputs; restore the default reducibility for this development.
set_option allowUnsafeReducibility true in
attribute [semireducible] Rat.add Rat.mul Rat.inv Rat.sub

/-- JS `Math.round`: floor of `x + 1/2` (JS rounds half toward `+∞`). -/
def jsRound (x : ℚ) : ℤ := ⌊x + 1/2⌋

/-- JS `x || d` on an optional numeric value: `undefined` (here `none`) and
`0` are falsy and fall back to the default `d`.  (`NaN` is also falsy in JS
and takes the same branch; `ℚ` has no `NaN`.) -/
def jsOr (x : Option ℚ) (d : ℚ) : ℚ :=
  match x with
  | none => d
  | some v => if v = 0 then d else v

/-- Streak metadata attached to an `Edge`
(`current_streak`, `hit_rate`, `streak_type: "hit" | "miss"`). -/
structure Streak where
  current_streak : ℚ
  hit_rate : ℚ
  streak_type : String
deriving Repr, DecidableEq

/-- The `Edge` record consumed by the parlay builders (`src/frontend/src/api/types.ts`
and the per-page copies).  Only the fields read by the embedded computations are
modelled; fields the code guards with `?.` or `|| default` are `Option ℚ`. -/
structure Edge where
  player_id : ℤ
  team_abbr : String
  opp_abbr : String
  stat_type : String
  recommendation : String
  over_odds : Option ℚ
  under_odds : Option ℚ
  over_prob : Option ℚ
  under_prob : Option ℚ
  no_vig_fair_over : Option ℚ
  no_vig_fair_under : Option ℚ
  edge_pct : Option ℚ
  streak : Option Streak
deriving Repr, DecidableEq

/-- `ParlayRecommendation` as in `part_008`/`part_009` (the `BetsPage.tsx`
variant, which has no `strategy` field, is `BetsTsx.ParlayRecommendation`). -/
structure ParlayRecommendation where
  id : String
  legs : List Edge
  legCount : ℕ
  strategy : String
  combinedOdds : ℤ
  impliedWinRate : ℚ
  correlationScore : ℚ
  expectedValue : ℚ
deriving Repr, DecidableEq

/-- `BetResult` union type: `'pending' | 'won' | 'lost' | 'push'`. -/
inductive BetResult where
  | pending
  | won
  | lost
  | push
deriving Repr, DecidableEq

/-- A persisted tracked parlay (ledger row). -/
structure TrackedParlay where
  id : String
  label : String
  stake : ℚ
  toWin : ℚ
  result : BetResult
deriving Repr, DecidableEq

/-- `americanToDecimal` — identical text in `BetsPage.tsx`, `part_008`, `part_009`:
`if (!odds) return 1.91; return odds > 0 ? 1 + odds / 100 : 1 + 100 / Math.abs(odds)`. -/
def americanToDecimal (odds : ℚ) : ℚ :=
  if odds = 0 then 191/100
  else if 0 < odds then 1 + odds / 100
  else 1 + 100 / |odds|

/-- `decimalToAmerican` — identical text in `BetsPage.tsx`, `part_008`, `part_009`:
`if (decimal <= 1) return -10000; if (decimal >= 2) return Math.round((decimal - 1) * 100);
return Math.round(-100 / (decimal - 1))`. -/
def decimalToAmerican (decimal : ℚ) : ℤ :=
  if decimal ≤ 1 then -10000
  else if 2 ≤ decimal then jsRound ((decimal - 1) * 100)
  else jsRound (-100 / (decimal - 1))

/-- `getLegOdds` — identical in all three page variants: the recommended side's
American odds, `|| -110` when missing or zero. -/
def getLegOdds (leg : Edge) : ℚ :=
  jsOr (if leg.recommendation = "OVER" then leg.over_odds else leg.under_odds) (-110)

/-- The recommended side's win-probability field
(`leg.recommendation === 'OVER' ? leg.over_prob : leg.under_prob`),
as read inside every `buildRecommendation`/`toRecommendation` variant. -/
def recWinProb (leg : Edge) : Option ℚ :=
  if leg.recommendation = "OVER" then leg.over_prob else leg.under_prob

/-- The per-leg win-rate factor `Math.max(winRate || 50, 1) / 100`, the inline
expression shared verbatim by `buildRecommendation` (`part_008`, `part_009`)
and `toRecommendation` (`BetsPage.tsx`). -/
def legWinFactor (leg : Edge) : ℚ :=
  max (jsOr (recWinProb leg) 50) 1 / 100

/-- `payout` — identical in all three page variants:
`won → toWin`, `lost → -stake`, otherwise `0`. -/
def payout (stake toWin : ℚ) : BetResult → ℚ
  | .won => toWin
  | .lost => -stake
  | _ => 0

/-- Translation of the nested correlation loop
`for i; for j > i: score += f(legs[i], legs[j])`, shared by all three
page variants: the plain (unnormalized) sum of `f` over the
`n·(n−1)/2` unordered index pairs. -/
def pairSum (f : Edge → Edge → ℚ) : List Edge → ℚ
  | [] => 0
  | a :: rest => ((rest.map (f a)).sum) + pairSum f rest

namespace Part009

/-- `probabilityToAmerican` (`part_009`): percentage probability in the open
interval `(0, 100)` mapped to fair American odds, defaulting to `-110` for a
missing, zero (falsy), non-positive or `≥ 100` input. -/
def probabilityToAmerican (probabilityPct : Option ℚ) : ℤ :=
  match probabilityPct with
  | none => -110
  | some p => if p ≤ 0 ∨ 100 ≤ p then -110 else decimalToAmerican (1 / (p / 100))

/-- `getNoVigOdds` (`part_009`): the recommended side's no-vig fair probability
fed through `probabilityToAmerican`. -/
def getNoVigOdds (leg : Edge) : ℤ :=
  probabilityToAmerican
    (if leg.recommendation = "OVER" then leg.no_vig_fair_over else leg.no_vig_fair_under)

/-- `correlationBetween` (`part_009`, lines 59–68; identical text in `part_008`):
`+0.4` same team, a further `+0.2` same opponent *and* same team, `+0.3` for an
assists/points pair, `−0.1` for a rebounds/points pair. -/
def correlationBetween (a b : Edge) : ℚ :=
  let score : ℚ := 0
  let score := if a.team_abbr = b.team_abbr then score + 4/10 else score
  let score := if a.opp_abbr = b.opp_abbr ∧ a.team_abbr = b.team_abbr then score + 2/10 else score
  let score := if (a.stat_type = "assists" ∧ b.stat_type = "points") ∨
      (a.stat_type = "points" ∧ b.stat_type = "assists") then score + 3/10 else score
  let score := if (a.stat_type = "rebounds" ∧ b.stat_type = "points") ∨
      (a.stat_type = "points" ∧ b.stat_type = "rebounds") then score - 1/10 else score
  score

/-- `buildRecommendation` (`part_009`, lines 70–100). -/
def buildRecommendation (legs : List Edge) (strategy : String)
    (useNoVigOdds : Bool := false) : ParlayRecommendation :=
  let decimalOdds := legs.foldl
    (fun total leg =>
      total * americanToDecimal (if useNoVigOdds then (getNoVigOdds leg : ℚ) else getLegOdds leg)) 1
  let impliedWinRate := legs.foldl (fun total leg => total * legWinFactor leg) 1
  let correlationScore := pairSum correlationBetween legs
  let expectedValue := impliedWinRate * (decimalOdds - 1) - (1 - impliedWinRate)
  { id := strategy ++ "-" ++ String.intercalate "-"
      (legs.map fun leg => toString leg.player_id ++ "-" ++ leg.stat_type)
    legs := legs
    legCount := legs.length
    strategy := strategy
    combinedOdds := decimalToAmerican decimalOdds
    impliedWinRate := impliedWinRate
    correlationScore := correlationScore
    expectedValue := expectedValue }

/-- `canAddLeg && !canAddLeg(selected, edge)` guard of `takeTopUniquePlayers`:
an absent filter always admits the candidate. -/
def canAddOk (canAddLeg : Option (List Edge → Edge → Bool)) (selected : List Edge)
    (e : Edge) : Bool :=
  match canAddLeg with
  | none => true
  | some f => f selected e

/-- Loop body of `takeTopUniquePlayers` (`part_009`, lines 102–121): walk the
sorted pool, skipping already-used players and candidates rejected by
`canAddLeg`, stopping as soon as `size` legs are selected. -/
def takeTopGo (size : ℕ) (canAddLeg : Option (List Edge → Edge → Bool)) :
    List Edge → List Edge → List ℤ → List Edge
  | [], selected, _ => selected
  | e :: rest, selected, used =>
    if used.contains e.player_id then takeTopGo size canAddLeg rest selected used
    else if canAddOk canAddLeg selected e = false then takeTopGo size canAddLeg rest selected used
    else
      let selected' := selected ++ [e]
      if selected'.length = size then selected'
      else takeTopGo size canAddLeg rest selected' (e.player_id :: used)

/-- `takeTopUniquePlayers` (`part_009`): sort the pool by `scorer` descending
(JS `sort` is stable; embedded as a stable insertion sort) and greedily select
the first `size` legs with fresh players that pass `canAddLeg`. -/
def takeTopUniquePlayers (edges : List Edge) (size : ℕ) (scorer : Edge → ℚ)
    (canAddLeg : Option (List Edge → Edge → Bool) := none) : List Edge :=
  takeTopGo size canAddLeg (edges.insertionSort fun a b => scorer b ≤ scorer a) [] []

/-- The `preventSameTeamInTwoLeg` candidate filter (`part_009`, line 189):
`size !== 2 || selected.length === 0 || selected[0].team_abbr !== candidate.team_abbr`
(`selected.headD candidate` stands for `selected[0]`; when `selected` is empty
the previous disjunct is already true). -/
def preventSameTeamInTwoLeg (size : ℕ) (selected : List Edge) (candidate : Edge) : Bool :=
  size != 2 || selected.isEmpty || (selected.headD candidate).team_abbr != candidate.team_abbr

/-- The inline streak scorer of `streakLegs` (`part_009`, line 195):
`(edge.streak?.current_streak || 0) * 100 + (edge.streak?.hit_rate || 0)`. -/
def streakScorer (edge : Edge) : ℚ :=
  jsOr (edge.streak.map Streak.current_streak) 0 * 100 + jsOr (edge.streak.map Streak.hit_rate) 0

/-- One iteration of the `sizes.forEach` body of `parlaysByLegCount`
(`part_009`, lines 184–212): the three strategy picks for one leg count,
each emitted only when the greedy selection filled all `size` legs. -/
def parlaysByLegCount (candidateEdges : List Edge) (size : ℕ) : List ParlayRecommendation :=
  let prevent := preventSameTeamInTwoLeg size
  let edgeLegs := takeTopUniquePlayers candidateEdges size (fun edge => jsOr edge.edge_pct 0)
    (some prevent)
  let streakLegs := takeTopUniquePlayers candidateEdges size streakScorer (some prevent)
  let vegasLegs := takeTopUniquePlayers candidateEdges size
    (fun edge => americanToDecimal (getNoVigOdds edge : ℚ)) (some prevent)
  (if edgeLegs.length = size then [buildRecommendation edgeLegs "edge"] else []) ++
  (if streakLegs.length = size then [buildRecommendation streakLegs "streak"] else []) ++
  (if vegasLegs.length = size then [buildRecommendation vegasLegs "vegas" true] else [])

/-- One entry of the 4/4/2 composite strategy (label, stake, parlay). -/
structure StratEntry where
  label : String
  stake : ℚ
  parlay : ParlayRecommendation
deriving Repr, DecidableEq

/-- `strategy442` (`part_009`, lines 214–231): requires two 2-leg picks,
dedupes the union of their legs down to 4 unique-player legs, and is omitted
entirely when deduplication yields fewer than 4. -/
def strategy442 (twoLeg : List ParlayRecommendation) : List StratEntry :=
  match twoLeg with
  | first :: second :: _ =>
    let merged := first.legs ++ second.legs
    let uniqueMerged := takeTopUniquePlayers merged 4 (fun edge => jsOr edge.edge_pct 0)
    if uniqueMerged.length < 4 then []
    else
      let fourLegger := buildRecommendation uniqueMerged "edge"
      [{ label := "$4 - 2 Legger (Edge%)", stake := 4, parlay := first },
       { label := "$4 - 2 Legger (Streak)", stake := 4, parlay := second },
       { label := "$2 - Combined 4 Legger", stake := 2, parlay := fourLegger }]
  | _ => []

/-- Summary record returned by `bankrollSummary` (`part_009`). -/
structure BankrollSummary where
  totalStaked : ℚ
  pnl : ℚ
  roi : ℚ
  currentBankroll : ℚ
deriving Repr, DecidableEq

/-- `bankrollSummary` (`part_009`, lines 256–267): `Σ stake`, `Σ payout`,
`roi = pnl / totalStaked × 100` guarded by JS truthiness of `totalStaked`
(zero total yields `0`), and `bankroll + pnl`. -/
def bankrollSummary (trackedParlays : List TrackedParlay) (bankroll : ℚ) : BankrollSummary :=
  let totalStaked := trackedParlays.foldl (fun sum bet => sum + bet.stake) 0
  let pnl := trackedParlays.foldl (fun sum bet => sum + payout bet.stake bet.toWin bet.result) 0
  { totalStaked := totalStaked
    pnl := pnl
    roi := if totalStaked = 0 then 0 else pnl / totalStaked * 100
    currentBankroll := bankroll + pnl }

end Part009

namespace Part008

/-- `correlationBetween` (`part_008`, lines 47–56; same text as the
`part_009` copy). -/
def correlationBetween (a b : Edge) : ℚ :=
  let score : ℚ := 0
  let score := if a.team_abbr = b.team_abbr then score + 4/10 else score
  let score := if a.opp_abbr = b.opp_abbr ∧ a.team_abbr = b.team_abbr then score + 2/10 else score
  let score := if (a.stat_type = "assists" ∧ b.stat_type = "points") ∨
      (a.stat_type = "points" ∧ b.stat_type = "assists") then score + 3/10 else score
  let score := if (a.stat_type = "rebounds" ∧ b.stat_type = "points") ∨
      (a.stat_type = "points" ∧ b.stat_type = "rebounds") then score - 1/10 else score
  score

/-- Recursive body of `makeParlayCombos` (`part_008`, lines 58–74): for each
pool index from `start` on, skip candidates repeating a selected player,
otherwise branch into "take it" (recursing past it) and "leave it".  The
JS `combos.push` order (take-branch first) is preserved. -/
def combosGo (size : ℕ) : List Edge → List Edge → List (List Edge)
  | rest, current =>
    if current.length = size then [current]
    else
      match rest with
      | [] => []
      | e :: rs =>
        (if current.any (fun leg => leg.player_id = e.player_id) then []
         else combosGo size rs (current ++ [e])) ++ combosGo size rs current

/-- `makeParlayCombos` (`part_008`): all size-`size` combinations of pool legs
with no repeated player. -/
def makeParlayCombos (edges : List Edge) (size : ℕ) : List (List Edge) :=
  combosGo size edges []

/-- `buildRecommendation` (`part_008`, lines 76–102). -/
def buildRecommendation (legs : List Edge) (strategy : String) : ParlayRecommendation :=
  let decimalOdds := legs.foldl (fun total leg => total * americanToDecimal (getLegOdds leg)) 1
  let impliedWinRate := legs.foldl (fun total leg => total * legWinFactor leg) 1
  let correlationScore := pairSum correlationBetween legs
  let expectedValue := impliedWinRate * (decimalOdds - 1) - (1 - impliedWinRate)
  { id := strategy ++ "-" ++ String.intercalate "-"
      (legs.map fun leg => toString leg.player_id ++ "-" ++ leg.stat_type)
    legs := legs
    legCount := legs.length
    strategy := strategy
    combinedOdds := decimalToAmerican decimalOdds
    impliedWinRate := impliedWinRate
    correlationScore := correlationScore
    expectedValue := expectedValue }

/-- Per-leg term of the `byStreak` ranking key (`part_008`, lines 176–177):
`(leg.streak?.hit_rate || 0) + (leg.streak?.current_streak || 0) * 5`. -/
def streakLegScore (leg : Edge) : ℚ :=
  jsOr (leg.streak.map Streak.hit_rate) 0 + jsOr (leg.streak.map Streak.current_streak) 0 * 5

/-- `byEdge` ranking key: summed leg `edge_pct || 0`. -/
def edgeSum (r : ParlayRecommendation) : ℚ :=
  r.legs.foldl (fun sum leg => sum + jsOr leg.edge_pct 0) 0

/-- `byStreak` ranking key: summed per-leg streak scores. -/
def streakSum (r : ParlayRecommendation) : ℚ :=
  r.legs.foldl (fun sum leg => sum + streakLegScore leg) 0

/-- `byVegas` ranking key: the combined odds as a decimal multiplier. -/
def vegasKey (r : ParlayRecommendation) : ℚ :=
  americanToDecimal (r.combinedOdds : ℚ)

/-- One iteration of the `sizes.forEach` body of `parlaysByLegCount`
(`part_008`, lines 155–192): guard on pool size, enumerate no-repeated-player
combos, and pick the argmax recommendation per strategy (the JS
`[...].sort(cmp)[0]` of a stable descending sort, i.e. the first maximum). -/
def parlaysByLegCount (candidateEdges : List Edge) (size : ℕ) : List ParlayRecommendation :=
  if candidateEdges.length < size then []
  else
    let combos := makeParlayCombos candidateEdges size
    match combos with
    | [] => []
    | _ :: _ =>
      let recommendations := combos.map (fun legs => buildRecommendation legs "edge")
      let byEdge := (recommendations.insertionSort fun a b => edgeSum b ≤ edgeSum a).head?
      let byStreak := (recommendations.insertionSort fun a b => streakSum b ≤ streakSum a).head?
      let byVegas := (recommendations.insertionSort fun a b => vegasKey b ≤ vegasKey a).head?
      match byEdge, byStreak, byVegas with
      | some bE, some bS, some bV =>
        [{ bE with strategy := "edge" }, { bS with strategy := "streak" },
         { bV with strategy := "vegas" }]
      | _, _, _ => []

end Part008

namespace BetsTsx

/-- `ParlayRecommendation` of `BetsPage.tsx` (no `strategy` field). -/
structure ParlayRecommendation where
  id : String
  legs : List Edge
  legCount : ℕ
  combinedOdds : ℤ
  impliedWinRate : ℚ
  correlationScore : ℚ
  expectedValue : ℚ
deriving Repr, DecidableEq

/-- `correlationBetween` (`BetsPage.tsx`, lines 44–54).  Unlike the
`part_008`/`part_009` copies it also adds `+0.1` whenever the two legs share
the same `stat_type`. -/
def correlationBetween (a b : Edge) : ℚ :=
  let score : ℚ := 0
  let score := if a.team_abbr = b.team_abbr then score + 4/10 else score
  let score := if a.opp_abbr = b.opp_abbr ∧ a.team_abbr = b.team_abbr then score + 2/10 else score
  let score := if a.stat_type = b.stat_type then score + 1/10 else score
  let score := if (a.stat_type = "assists" ∧ b.stat_type = "points") ∨
      (a.stat_type = "points" ∧ b.stat_type = "assists") then score + 3/10 else score
  let score := if (a.stat_type = "rebounds" ∧ b.stat_type = "points") ∨
      (a.stat_type = "points" ∧ b.stat_type = "rebounds") then score - 1/10 else score
  score

/-- The combo identity string
`current.map((e) => player_id-stat_type-recommendation).join('|')`. -/
def comboId (current : List Edge) : String :=
  String.intercalate "|"
    (current.map fun e => toString e.player_id ++ "-" ++ e.stat_type ++ "-" ++ e.recommendation)

/-- Recursive body of `makeParlayCombo` (`BetsPage.tsx`, lines 56–73).  Unlike
`part_008` it performs NO repeated-player check; it only deduplicates whole
combos through the shared `seen` id set, which is threaded as state together
with the accumulated combo list. -/
def comboGo (size : ℕ) : List Edge → List Edge → List String × List (List Edge) →
    List String × List (List Edge)
  | rest, current, st =>
    if current.length = size then
      let cid := comboId current
      if st.1.contains cid then st else (cid :: st.1, st.2 ++ [current])
    else
      match rest with
      | [] => st
      | e :: rs => comboGo size rs current (comboGo size rs (current ++ [e]) st)

/-- `makeParlayCombo` (`BetsPage.tsx`): every size-`size` index combination of
the pool (players may repeat), deduplicated by combo id. -/
def makeParlayCombo (edges : List Edge) (size : ℕ) : List (List Edge) :=
  (comboGo size edges [] ([], [])).2

/-- `toRecommendation` (`BetsPage.tsx`, lines 75–100). -/
def toRecommendation (legs : List Edge) : ParlayRecommendation :=
  let decimalOdds := legs.foldl (fun product leg => product * americanToDecimal (getLegOdds leg)) 1
  let impliedWinRate := legs.foldl (fun product leg => product * legWinFactor leg) 1
  let correlationScore := pairSum correlationBetween legs
  let expectedValue := impliedWinRate * (decimalOdds - 1) - (1 - impliedWinRate)
  { id := String.intercalate "-" (legs.map fun leg => toString leg.player_id ++ "-" ++ leg.stat_type)
    legs := legs
    legCount := legs.length
    combinedOdds := decimalToAmerican decimalOdds
    impliedWinRate := impliedWinRate
    correlationScore := correlationScore
    expectedValue := expectedValue }

/-- One iteration of the `sizes.forEach` body of `bestByLegCount`
(`BetsPage.tsx`, lines 123–141): empty when the pool is shorter than `size`,
otherwise the top 3 recommendations by `expectedValue + correlationScore * 0.04`
(stable descending sort). -/
def bestByLegCount (candidateEdges : List Edge) (size : ℕ) : List ParlayRecommendation :=
  if candidateEdges.length < size then []
  else
    ((makeParlayCombo candidateEdges size).map toRecommendation).insertionSort
      (fun a b => b.expectedValue + b.correlationScore * (4/100)
        ≤ a.expectedValue + a.correlationScore * (4/100)) |>.take 3

/-- One entry of the `BetsPage.tsx` 4/4/2 composite strategy. -/
structure StratEntry where
  label : String
  stake : ℚ
  parlay : ParlayRecommendation
deriving Repr, DecidableEq

/-- `strategy442` (`BetsPage.tsx`, lines 143–157): takes the first two 2-leg
recommendations and synthesizes a 4-legger from the FIRST FOUR legs of their
concatenation (`.slice(0, 4)`), with no player deduplication and no
fewer-than-4-legs omission. -/
def strategy442 (twoLeg : List ParlayRecommendation) : List StratEntry :=
  match twoLeg with
  | twoLegA :: twoLegB :: _ =>
    let fourLegEdges := (twoLegA.legs ++ twoLegB.legs).take 4
    let fourLegger := toRecommendation fourLegEdges
    [{ label := "$4 - 2 Legger A", stake := 4, parlay := twoLegA },
     { label := "$4 - 2 Legger B", stake := 4, parlay := twoLegB },
     { label := "$2 - Combined 4 Legger", stake := 2, parlay := fourLegger }]
  | _ => []

end BetsTsx

namespace Dashboard

/-- `getRecommendedSideStreak` (`part_010` lines 257–269, also
`AccuracyPage.tsx` lines 519–533): a streak counts only when its
`streak_type` is aligned with the edge's recommended side
(`hit` for OVER, `miss` for UNDER). -/
def getRecommendedSideStreak (edge : Edge) : ℚ :=
  match edge.streak with
  | none => 0
  | some s =>
    if edge.recommendation = "OVER" then
      if s.streak_type = "hit" then s.current_streak else 0
    else if edge.recommendation = "UNDER" then
      if s.streak_type = "miss" then s.current_streak else 0
    else 0

end Dashboard

namespace AccuracyTsx

/-- A graded historical bet (`AccuracyPage.tsx` `TrackedBet`); only the field
read by `summarizeTrackedBets` is modelled. -/
structure TrackedBet where
  bet_result : String
deriving Repr, DecidableEq

/-- `BetSummary` (`AccuracyPage.tsx`). -/
structure BetSummary where
  total : ℕ
  wins : ℕ
  losses : ℕ
  pushes : ℕ
  winRate : ℚ
deriving Repr, DecidableEq

/-- `summarizeTrackedBets` (`AccuracyPage.tsx`, lines 1012–1026): win/loss/push
counts, and win rate `wins / (wins + losses) × 100` with pushes excluded from
the denominator, `0` when nothing is graded. -/
def summarizeTrackedBets (bets : List TrackedBet) : BetSummary :=
  let wins := (bets.filter fun bet => bet.bet_result == "win").length
  let losses := (bets.filter fun bet => bet.bet_result == "loss").length
  let pushes := (bets.filter fun bet => bet.bet_result == "push").length
  let graded := wins + losses
  let winRate : ℚ := if 0 < graded then ((wins : ℚ) / (graded : ℚ)) * 100 else 0
  { total := bets.length
    wins := wins
    losses := losses
    pushes := pushes
    winRate := winRate }

end AccuracyTsx

/-- Modelled from the spec (for refinement comparison only): the pairwise
correlation contributions exactly as the spec sentence lists them — `+0.4`
same team, `+0.2` additionally for same team and same opponent, `+0.3` for an
assists/points pair, `−0.1` for a rebounds/points pair, all other
relationships `0`. -/
def specCorrelationBetween (a b : Edge) : ℚ :=
  (if a.team_abbr = b.team_abbr then 4/10 else 0) +
  (if a.team_abbr = b.team_abbr ∧ a.opp_abbr = b.opp_abbr then 2/10 else 0) +
  (if (a.stat_type = "assists" ∧ b.stat_type = "points") ∨
      (a.stat_type = "points" ∧ b.stat_type = "assists") then 3/10 else 0) +
  (if (a.stat_type = "rebounds" ∧ b.stat_type = "points") ∨
      (a.stat_type = "points" ∧ b.stat_type = "rebounds") then -(1/10) else 0)

/-- Modelled from the spec (for refinement comparison only): the claimed
implied-win-rate formula `∏ max(legWinProb_i, 1)/100`, reading each leg's
recommended-side probability field directly (a missing field reads as its
JS value `undefined`; `getD 0` places it below the claimed 1% floor). -/
def specImpliedWinRate (legs : List Edge) : ℚ :=
  (legs.map fun leg => max ((recWinProb leg).getD 0) 1 / 100).prod

/-- Modelled from the spec (for refinement comparison only): the claimed
streak-strategy leg score — `current_streak × weight + hit_rate` when the
streak is aligned with the recommended side, `0` otherwise. -/
def specStreakScore (weight : ℚ) (edge : Edge) : ℚ :=
  match edge.streak with
  | none => 0
  | some s =>
    if (edge.recommendation = "OVER" ∧ s.streak_type = "hit") ∨
       (edge.recommendation = "UNDER" ∧ s.streak_type = "miss") then
      s.current_streak * weight + s.hit_rate
    else 0

/-! Concrete `Edge` records used by the counterexample and witness theorems. -/

/-- A concrete edge with every optional field absent. -/
def baseEdge : Edge :=
  { player_id := 1, team_abbr := "BOS", opp_abbr := "NYK", stat_type := "points"
    recommendation := "OVER", over_odds := none, under_odds := none
    over_prob := none, under_prob := none, no_vig_fair_over := none
    no_vig_fair_under := none, edge_pct := none, streak := none }

/-- Two candidate edges for the same player (id 7), differing in stat type. -/
def dupA1 : Edge := { baseEdge with player_id := 7, stat_type := "points" }

/-- Second stat line of player 7. -/
def dupA2 : Edge := { baseEdge with player_id := 7, stat_type := "assists" }

/-- Two candidate edges for the same player (id 9), differing in stat type. -/
def dupB1 : Edge := { baseEdge with player_id := 9, team_abbr := "MIA", stat_type := "rebounds" }

/-- Second stat line of player 9. -/
def dupB2 : Edge := { baseEdge with player_id := 9, team_abbr := "MIA", stat_type := "assists" }

/-- Two distinct players on the same team ("BOS"). -/
def tm1 : Edge := { baseEdge with player_id := 11 }

/-- Teammate of `tm1`. -/
def tm2 : Edge := { baseEdge with player_id := 12, stat_type := "rebounds" }

/-- A leg whose recommended-side probability is present but zero. -/
def zeroProbLeg : Edge := { baseEdge with over_prob := some 0, over_odds := some (-110) }

/-- A leg recommended OVER carrying a misaligned (miss) streak of length 5. -/
def missStreakLeg : Edge :=
  { baseEdge with streak := some { current_streak := 5, hit_rate := 80, streak_type := "miss" } }

/-- An assists edge on BOS. -/
def sameStatA : Edge := { baseEdge with stat_type := "assists" }

/-- An assists edge for another player on LAL (shares only the stat type with
`sameStatA`). -/
def sameStatB : Edge :=
  { baseEdge with player_id := 2, stat_type := "assists", team_abbr := "LAL", opp_abbr := "GSW" }

/-- Four distinct players, two of them ("BOS") teammates, with descending
edge percentages. -/
def fourPool : List Edge :=
  [{ baseEdge with player_id := 21, edge_pct := some 9 },
   { baseEdge with player_id := 22, edge_pct := some 8, stat_type := "rebounds" },
   { baseEdge with player_id := 23, edge_pct := some 7, team_abbr := "LAL", opp_abbr := "GSW" },
   { baseEdge with player_id := 24, edge_pct := some 6, team_abbr := "DEN", opp_abbr := "PHX" }]

/-- A tracked parlay graded as won (stake 10, to-win 15). -/
def wonBet : TrackedParlay :=
  { id := "t1", label := "test", stake := 10, toWin := 15, result := .won }

/-! Counterexample theorems. -/

/-- C1 counterexample: with two candidate edges for the same player (id 7),
`BetsPage.tsx`'s `makeParlayCombo` emits the duplicated-player pair and
`bestByLegCount` turns it into a produced `ParlayRecommendation` whose two
legs share `player_id = 7` — the claimed per-parlay player uniqueness fails. -/
theorem betsTsx_produces_duplicate_player_parlay :
    (BetsTsx.makeParlayCombo [dupA1, dupA2] 2).map (fun c => c.map Edge.player_id) = [[7, 7]] ∧
    (BetsTsx.bestByLegCount [dupA1, dupA2] 2).map (fun r => r.legs.map Edge.player_id)
      = [[7, 7]] := by
  decide

/-- C2 counterexample: a leg recommended OVER with a 5-game miss streak
(`hit_rate` 80) scores `80 + 5 × 5 = 105 ≠ 0` under the `part_008` "Best
Streak" leg scorer — the claimed alignment restriction (misaligned streak
contributes 0) does not hold. -/
theorem misaligned_streak_scores_nonzero :
    Part008.streakLegScore missStreakLeg = 105 ∧
    Part009.streakScorer missStreakLeg = 580 ∧
    specStreakScore 5 missStreakLeg = 0 := by
  decide

/-- C3 counterexample: on a pool of two distinct players who share team "BOS",
`part_008`'s `parlaysByLegCount` produces 2-leg recommendations whose two legs
share `team_abbr` — the claimed 2-leg same-team exclusion fails there. -/
theorem part008_two_leg_same_team :
    (Part008.parlaysByLegCount [tm1, tm2] 2).map (fun r => r.legs.map Edge.team_abbr)
      = [["BOS", "BOS"], ["BOS", "BOS"], ["BOS", "BOS"]] := by
  decide

/-- C4 counterexample: for a leg whose recommended-side probability is present
but zero, the pricer's implied win rate is `0.5` (the `|| 50` default), not the
claimed `max(p, 1)/100 = 0.01` floor. -/
theorem implied_win_rate_zero_prob_not_floored :
    (Part009.buildRecommendation [zeroProbLeg] "edge").impliedWinRate = 1/2 ∧
    specImpliedWinRate [zeroProbLeg] = 1/100 ∧
    (Part009.buildRecommendation [zeroProbLeg] "edge").impliedWinRate
      ≠ specImpliedWinRate [zeroProbLeg] := by
  decide

/-- C5 counterexample: at American odds `o = −100` the decimal value is exactly
2, so the roundtrip lands in the `decimal ≥ 2` branch and returns `+100`, not
`−100` — the conversions are not mutually inverse on all of `|o| ≥ 100`. -/
theorem roundtrip_fails_at_minus_100 :
    decimalToAmerican (americanToDecimal (-100)) = 100 ∧
    decimalToAmerican (americanToDecimal (-100)) ≠ -100 := by
  constructor <;> norm_num [americanToDecimal, decimalToAmerican, jsRound]

/-- C6 counterexample: two legs of different teams sharing `stat_type`
"assists" score `+0.1` under `BetsPage.tsx`'s `correlationBetween`
(its extra same-stat rule), while the claimed rule set gives `0`. -/
theorem betsTsx_same_stat_correlation_nonzero :
    BetsTsx.correlationBetween sameStatA sameStatB = 1/10 ∧
    specCorrelationBetween sameStatA sameStatB = 0 ∧
    BetsTsx.correlationBetween sameStatA sameStatB
      ≠ specCorrelationBetween sameStatA sameStatB := by
  decide

/-- C7 counterexample: a pool of two edges of the same player (one unique
player, fewer than the 2 required unique-player legs) still yields a non-empty
2-leg output from `BetsPage.tsx`'s `bestByLegCount`, because its guard only
compares the pool length with the requested size. -/
theorem betsTsx_short_unique_pool_not_empty :
    ([dupB1, dupB2].map Edge.player_id).dedup.length = 1 ∧
    BetsTsx.bestByLegCount [dupB1, dupB2] 2 ≠ [] := by
  decide

/-! Supporting lemmas. -/

/-- A multiplicative fold starting at `init` is `init` times the product of
the mapped list. -/
theorem foldl_mul_eq_prod (f : Edge → ℚ) (l : List Edge) (init : ℚ) :
    l.foldl (fun t leg => t * f leg) init = init * (l.map f).prod := by
  induction l generalizing init with
  | nil => simp
  | cons a l ih => simp [ih, mul_assoc]

/-- An additive fold starting at `init` is `init` plus the sum of the mapped
list. -/
theorem foldl_add_eq_sum {α : Type} (f : α → ℚ) (l : List α) (init : ℚ) :
    l.foldl (fun s b => s + f b) init = init + (l.map f).sum := by
  induction l generalizing init with
  | nil => simp
  | cons a l ih => simp [ih, add_assoc]

/-- Every leg returned by `takeTopGo` comes from the already-selected legs or
from the remaining pool. -/
theorem takeTopGo_mem (size : ℕ) (cA : Option (List Edge → Edge → Bool)) :
    ∀ (rest selected : List Edge) (used : List ℤ),
      ∀ x ∈ Part009.takeTopGo size cA rest selected used, x ∈ selected ∨ x ∈ rest := by
  intro rest
  induction rest with
  | nil => intro selected used x hx; exact Or.inl hx
  | cons e rs ih =>
    intro selected used x hx
    simp only [Part009.takeTopGo] at hx
    split at hx
    · rcases ih selected used x hx with h | h
      · exact Or.inl h
      · exact Or.inr (List.mem_cons_of_mem _ h)
    · split at hx
      · rcases ih selected used x hx with h | h
        · exact Or.inl h
        · exact Or.inr (List.mem_cons_of_mem _ h)
      · split at hx
        · rcases List.mem_append.mp hx with h | h
          · exact Or.inl h
          · exact Or.inr (List.mem_cons.mpr (Or.inl (List.mem_singleton.mp h)))
        · rcases ih (selected ++ [e]) (e.player_id :: used) x hx with h | h
          · rcases List.mem_append.mp h with h' | h'
            · exact Or.inl h'
            · exact Or.inr (List.mem_cons.mpr (Or.inl (List.mem_singleton.mp h')))
          · exact Or.inr (List.mem_cons_of_mem _ h)

/-- `takeTopGo` preserves player uniqueness: if the selected legs have
pairwise-distinct players all registered in `used`, so does the result. -/
theorem takeTopGo_nodup (size : ℕ) (cA : Option (List Edge → Edge → Bool)) :
    ∀ (rest selected : List Edge) (used : List ℤ),
      (selected.map Edge.player_id).Nodup →
      (∀ x ∈ selected, x.player_id ∈ used) →
      ((Part009.takeTopGo size cA rest selected used).map Edge.player_id).Nodup := by
  intro rest
  induction rest with
  | nil => intro selected used hnd _; exact hnd
  | cons e rs ih =>
    intro selected used hnd hused
    simp only [Part009.takeTopGo]
    split
    · exact ih selected used hnd hused
    · split
      · exact ih selected used hnd hused
      · have hnotin : e.player_id ∉ used := by
          intro hmem
          rename_i hcon _
          exact hcon (List.elem_eq_true_of_mem hmem)
        have hnotsel : e.player_id ∉ selected.map Edge.player_id := by
          intro hmem
          rcases List.mem_map.mp hmem with ⟨x, hx, hpx⟩
          exact hnotin (hpx ▸ hused x hx)
        have hnd' : ((selected ++ [e]).map Edge.player_id).Nodup := by
          simp only [List.map_append, List.map_cons, List.map_nil]
          simp [List.nodup_append, hnd, hnotsel]
        split
        · exact hnd'
        · refine ih (selected ++ [e]) (e.player_id :: used) hnd' ?_
          intro x hx
          rcases List.mem_append.mp hx with h | h
          · exact List.mem_cons_of_mem _ (hused x h)
          · simp [List.mem_singleton.mp h]

/-- `takeTopGo` never overshoots the requested size when entered strictly
below it. -/
theorem takeTopGo_len (size : ℕ) (cA : Option (List Edge → Edge → Bool)) :
    ∀ (rest selected : List Edge) (used : List ℤ),
      selected.length < size →
      (Part009.takeTopGo size cA rest selected used).length ≤ size := by
  intro rest
  induction rest with
  | nil => intro selected used h; exact Nat.le_of_lt h
  | cons e rs ih =>
    intro selected used h
    simp only [Part009.takeTopGo]
    split
    · exact ih selected used h
    · split
      · exact ih selected used h
      · split
        · rename_i hlen
          exact Nat.le_of_eq hlen
        · rename_i hlen
          refine ih (selected ++ [e]) (e.player_id :: used) ?_
          have : (selected ++ [e]).length = selected.length + 1 := by simp
          omega

/-- Splitting `selected ++ [e] = [a, b]` into its only solution. -/
theorem append_single_eq_pair {selected : List Edge} {e a b : Edge}
    (h : selected ++ [e] = [a, b]) : selected = [a] ∧ e = b := by
  have h' : selected ++ [e] = [a] ++ [b] := by simpa using h
  rcases List.append_inj' h' rfl with ⟨h1, h2⟩
  exact ⟨h1, by injection h2⟩

/-- Splitting `selected ++ [e] = [a]` into its only solution. -/
theorem append_single_eq_single {selected : List Edge} {e a : Edge}
    (h : selected ++ [e] = [a]) : selected = [] ∧ e = a := by
  have h' : selected ++ [e] = [] ++ [a] := by simpa using h
  rcases List.append_inj' h' rfl with ⟨h1, h2⟩
  exact ⟨h1, by injection h2⟩

/-- In a two-leg run of `takeTopGo` under the `preventSameTeamInTwoLeg`
filter, a returned pair that was not already fully selected on entry has
distinct teams. -/
theorem takeTopGo_two_team :
    ∀ (rest selected : List Edge) (used : List ℤ) (a b : Edge),
      Part009.takeTopGo 2 (some (Part009.preventSameTeamInTwoLeg 2)) rest selected used = [a, b] →
      selected = [a, b] ∨ (selected = [a] ∧ a.team_abbr ≠ b.team_abbr) ∨
        (selected = [] ∧ a.team_abbr ≠ b.team_abbr) := by
  intro rest
  induction rest with
  | nil => intro selected used a b h; exact Or.inl h
  | cons e rs ih =>
    intro selected used a b h
    simp only [Part009.takeTopGo] at h
    split at h
    · exact ih selected used a b h
    · split at h
      · exact ih selected used a b h
      · rename_i hok
        have hguard : selected = [a] → e = b → a.team_abbr ≠ b.team_abbr := by
          intro hsel heb heq
          rw [hsel, heb] at hok
          simp [Part009.canAddOk, Part009.preventSameTeamInTwoLeg, heq] at hok
        split at h
        · rcases append_single_eq_pair h with ⟨hsel, heb⟩
          exact Or.inr (Or.inl ⟨hsel, hguard hsel heb⟩)
        · rcases ih (selected ++ [e]) (e.player_id :: used) a b h with h' | h' | h'
          · rcases append_single_eq_pair h' with ⟨hsel, heb⟩
            exact Or.inr (Or.inl ⟨hsel, hguard hsel heb⟩)
          · rcases append_single_eq_single h'.1 with ⟨hsel, _⟩
            exact Or.inr (Or.inr ⟨hsel, h'.2⟩)
          · exact absurd h'.1 (by simp)

/-- The legs selected by `takeTopUniquePlayers` always have pairwise-distinct
players. -/
theorem takeTop_nodup (pool : List Edge) (size : ℕ) (scorer : Edge → ℚ)
    (cA : Option (List Edge → Edge → Bool)) :
    ((Part009.takeTopUniquePlayers pool size scorer cA).map Edge.player_id).Nodup :=
  takeTopGo_nodup size cA _ [] [] (by simp) (by simp)

/-- Every leg selected by `takeTopUniquePlayers` comes from the pool. -/
theorem takeTop_mem (pool : List Edge) (size : ℕ) (scorer : Edge → ℚ)
    (cA : Option (List Edge → Edge → Bool)) :
    ∀ x ∈ Part009.takeTopUniquePlayers pool size scorer cA, x ∈ pool := by
  intro x hx
  rcases takeTopGo_mem size cA _ [] [] x hx with h | h
  · simp at h
  · exact (List.perm_insertionSort (fun a b => scorer b ≤ scorer a) pool).mem_iff.mp h

/-- `takeTopUniquePlayers` selects at most as many legs as the pool has
distinct players. -/
theorem takeTop_le_card (pool : List Edge) (size : ℕ) (scorer : Edge → ℚ)
    (cA : Option (List Edge → Edge → Bool)) :
    (Part009.takeTopUniquePlayers pool size scorer cA).length
      ≤ (pool.map Edge.player_id).toFinset.card := by
  set r := Part009.takeTopUniquePlayers pool size scorer cA with hr
  have hnd : (r.map Edge.player_id).Nodup := takeTop_nodup pool size scorer cA
  have hsub : (r.map Edge.player_id).toFinset ⊆ (pool.map Edge.player_id).toFinset := by
    intro p hp
    rcases List.mem_map.mp (List.mem_toFinset.mp hp) with ⟨x, hx, hpx⟩
    exact List.mem_toFinset.mpr (List.mem_map.mpr ⟨x, takeTop_mem pool size scorer cA x hx, hpx⟩)
  calc r.length = (r.map Edge.player_id).length := (List.length_map _ _).symm
    _ = (r.map Edge.player_id).toFinset.card := (List.toFinset_card_of_nodup hnd).symm
    _ ≤ (pool.map Edge.player_id).toFinset.card := Finset.card_le_card hsub

/-- `takeTopUniquePlayers` never returns more than `size` legs
(for a positive requested size). -/
theorem takeTop_le_size (pool : List Edge) (size : ℕ) (scorer : Edge → ℚ)
    (cA : Option (List Edge → Edge → Bool)) (hpos : 0 < size) :
    (Part009.takeTopUniquePlayers pool size scorer cA).length ≤ size :=
  takeTopGo_len size cA _ [] [] (by simpa using hpos)

/-- A two-leg pick under the same-team filter has distinct teams. -/
theorem takeTop_two_team (pool : List Edge) (scorer : Edge → ℚ) (a b : Edge)
    (h : Part009.takeTopUniquePlayers pool 2 scorer
      (some (Part009.preventSameTeamInTwoLeg 2)) = [a, b]) :
    a.team_abbr ≠ b.team_abbr := by
  rcases takeTopGo_two_team _ [] [] a b h with h' | h' | h'
  · exact absurd h' (by simp)
  · exact absurd h'.1 (by simp)
  · exact h'.2

/-- Every combination emitted by `part_008`'s `combosGo` has exactly `size`
legs, draws its legs from the current selection or the remaining pool, and —
when the current selection has pairwise-distinct players — keeps players
pairwise distinct. -/
theorem combosGo_spec (size : ℕ) :
    ∀ (rest current : List Edge), ∀ c ∈ Part008.combosGo size rest current,
      c.length = size ∧ (∀ x ∈ c, x ∈ current ∨ x ∈ rest) ∧
        ((current.map Edge.player_id).Nodup → (c.map Edge.player_id).Nodup) := by
  intro rest
  induction rest with
  | nil =>
    intro current c hc
    simp only [Part008.combosGo] at hc
    split at hc
    · rename_i hlen
      rcases List.mem_singleton.mp hc with rfl
      exact ⟨hlen, fun x hx => Or.inl hx, fun h => h⟩
    · simp at hc
  | cons e rs ih =>
    intro current c hc
    simp only [Part008.combosGo] at hc
    split at hc
    · rename_i hlen
      rcases List.mem_singleton.mp hc with rfl
      exact ⟨hlen, fun x hx => Or.inl hx, fun h => h⟩
    · rcases List.mem_append.mp hc with hmem | hmem
      · split at hmem
        · simp at hmem
        · rename_i hdup
          rcases ih (current ++ [e]) c hmem with ⟨hlen, hsub, hnd⟩
          refine ⟨hlen, ?_, ?_⟩
          · intro x hx
            rcases hsub x hx with h | h
            · rcases List.mem_append.mp h with h' | h'
              · exact Or.inl h'
              · exact Or.inr (List.mem_cons.mpr (Or.inl (List.mem_singleton.mp h')))
            · exact Or.inr (List.mem_cons_of_mem _ h)
          · intro hcur
            refine hnd ?_
            have hne : e.player_id ∉ current.map Edge.player_id := by
              intro hmem'
              rcases List.mem_map.mp hmem' with ⟨x, hx, hpx⟩
              exact hdup (List.any_eq_true.mpr ⟨x, hx, by simp [hpx]⟩)
            simp only [List.map_append, List.map_cons, List.map_nil]
            simp [List.nodup_append, hcur, hne]
      · rcases ih current c hmem with ⟨hlen, hsub, hnd⟩
        exact ⟨hlen, fun x hx => (hsub x hx).imp id (List.mem_cons_of_mem _), hnd⟩

/-- Every combination of `part_008`'s `makeParlayCombos` has exactly `size`
pairwise-distinct-player legs, all drawn from the pool. -/
theorem makeParlayCombos_spec (pool : List Edge) (size : ℕ) :
    ∀ c ∈ Part008.makeParlayCombos pool size,
      c.length = size ∧ (∀ x ∈ c, x ∈ pool) ∧ (c.map Edge.player_id).Nodup := by
  intro c hc
  rcases combosGo_spec size pool [] c hc with ⟨hlen, hsub, hnd⟩
  exact ⟨hlen, fun x hx => ((hsub x hx).resolve_left (by simp)), hnd (by simp)⟩

/-- Every combination that `BetsPage.tsx`'s `comboGo` adds to the accumulated
state has exactly `size` legs. -/
theorem comboGo_spec (size : ℕ) :
    ∀ (rest current : List Edge) (st : List String × List (List Edge)),
      ∀ c ∈ (BetsTsx.comboGo size rest current st).2, c ∈ st.2 ∨ c.length = size := by
  intro rest
  induction rest with
  | nil =>
    intro current st c hc
    simp only [BetsTsx.comboGo] at hc
    split at hc
    · rename_i hlen
      split at hc
      · exact Or.inl hc
      · rcases List.mem_append.mp hc with h | h
        · exact Or.inl h
        · exact Or.inr ((List.mem_singleton.mp h) ▸ hlen)
    · exact Or.inl hc
  | cons e rs ih =>
    intro current st c hc
    simp only [BetsTsx.comboGo] at hc
    split at hc
    · rename_i hlen
      split at hc
      · exact Or.inl hc
      · rcases List.mem_append.mp hc with h | h
        · exact Or.inl h
        · exact Or.inr ((List.mem_singleton.mp h) ▸ hlen)
    · rcases ih current _ c hc with h | h
      · rcases ih (current ++ [e]) st c h with h' | h'
        · exact Or.inl h'
        · exact Or.inr h'
      · exact Or.inr h

/-- Every combination of `BetsPage.tsx`'s `makeParlayCombo` has exactly `size`
legs. -/
theorem makeParlayCombo_len (pool : List Edge) (size : ℕ) :
    ∀ c ∈ BetsTsx.makeParlayCombo pool size, c.length = size := by
  intro c hc
  rcases comboGo_spec size pool [] ([], []) c hc with h | h
  · simp at h
  · exact h

/-- A list of pool legs with pairwise-distinct players is no longer than the
pool's number of distinct players. -/
theorem nodup_players_le_card (c pool : List Edge)
    (hnd : (c.map Edge.player_id).Nodup) (hsub : ∀ x ∈ c, x ∈ pool) :
    c.length ≤ (pool.map Edge.player_id).toFinset.card := by
  have hfin : (c.map Edge.player_id).toFinset ⊆ (pool.map Edge.player_id).toFinset := by
    intro p hp
    rcases List.mem_map.mp (List.mem_toFinset.mp hp) with ⟨x, hx, hpx⟩
    exact List.mem_toFinset.mpr (List.mem_map.mpr ⟨x, hsub x hx, hpx⟩)
  calc c.length = (c.map Edge.player_id).length := (List.length_map _ _).symm
    _ = (c.map Edge.player_id).toFinset.card := (List.toFinset_card_of_nodup hnd).symm
    _ ≤ (pool.map Edge.player_id).toFinset.card := Finset.card_le_card hfin

/-- With fewer distinct players than the requested size, `part_008` finds no
combination at all. -/
theorem makeParlayCombos_nil (pool : List Edge) (size : ℕ)
    (h : (pool.map Edge.player_id).toFinset.card < size) :
    Part008.makeParlayCombos pool size = [] := by
  cases hc : Part008.makeParlayCombos pool size with
  | nil => rfl
  | cons c cs =>
    exfalso
    rcases makeParlayCombos_spec pool size c (hc ▸ List.mem_cons_self c cs) with ⟨hlen, hsub, hnd⟩
    have := nodup_players_le_card c pool hnd hsub
    omega

/-- The head of a `head?` is a member. -/
theorem head?_some_mem {α : Type} {l : List α} {a : α} (h : l.head? = some a) : a ∈ l := by
  cases l with
  | nil => simp at h
  | cons hd tl =>
    simp only [List.head?_cons, Option.some.injEq] at h
    exact h ▸ List.mem_cons_self hd tl

/-- With fewer distinct players than the requested size, `part_008`'s
per-size output is empty. -/
theorem part008_pool_too_small (pool : List Edge) (size : ℕ)
    (h : (pool.map Edge.player_id).toFinset.card < size) :
    Part008.parlaysByLegCount pool size = [] := by
  simp only [Part008.parlaysByLegCount]
  split
  · rfl
  · rw [makeParlayCombos_nil pool size h]

/-- With fewer distinct players than the requested size, `part_009`'s
per-size output is empty. -/
theorem part009_pool_too_small (pool : List Edge) (size : ℕ)
    (h : (pool.map Edge.player_id).toFinset.card < size) :
    Part009.parlaysByLegCount pool size = [] := by
  have key : ∀ (scorer : Edge → ℚ) (cA : Option (List Edge → Edge → Bool)),
      ¬(Part009.takeTopUniquePlayers pool size scorer cA).length = size := by
    intro scorer cA he
    have := takeTop_le_card pool size scorer cA
    omega
  simp only [Part009.parlaysByLegCount]
  rw [if_neg (key _ _), if_neg (key _ _), if_neg (key _ _)]
  rfl

/-- The legs field of `part_009`'s `buildRecommendation` is its input list. -/
theorem part009_buildRec_legs (legs : List Edge) (strategy : String) (u : Bool) :
    (Part009.buildRecommendation legs strategy u).legs = legs := rfl

/-- The legs field of `part_008`'s `buildRecommendation` is its input list. -/
theorem part008_buildRec_legs (legs : List Edge) (strategy : String) :
    (Part008.buildRecommendation legs strategy).legs = legs := rfl

/-- The legs field of `BetsPage.tsx`'s `toRecommendation` is its input list. -/
theorem betsTsx_toRec_legs (legs : List Edge) :
    (BetsTsx.toRecommendation legs).legs = legs := rfl

/-- Every recommendation produced by `part_009`'s per-size construction has
exactly `size` legs, which have pairwise-distinct players. -/
theorem part009_mem_legs (pool : List Edge) (size : ℕ) (r : ParlayRecommendation)
    (hr : r ∈ Part009.parlaysByLegCount pool size) :
    r.legs.length = size ∧ (r.legs.map Edge.player_id).Nodup := by
  simp only [Part009.parlaysByLegCount] at hr
  rcases List.mem_append.mp hr with hm | hm
  · rcases List.mem_append.mp hm with hm' | hm'
    · split at hm'
      · rename_i hlen
        rcases List.mem_singleton.mp hm' with rfl
        exact ⟨by rw [part009_buildRec_legs]; exact hlen,
          by rw [part009_buildRec_legs]; exact takeTop_nodup _ _ _ _⟩
      · simp at hm'
    · split at hm'
      · rename_i hlen
        rcases List.mem_singleton.mp hm' with rfl
        exact ⟨by rw [part009_buildRec_legs]; exact hlen,
          by rw [part009_buildRec_legs]; exact takeTop_nodup _ _ _ _⟩
      · simp at hm'
  · split at hm
    · rename_i hlen
      rcases List.mem_singleton.mp hm with rfl
      exact ⟨by rw [part009_buildRec_legs]; exact hlen,
        by rw [part009_buildRec_legs]; exact takeTop_nodup _ _ _ _⟩
    · simp at hm

/-- Every recommendation produced by `part_008`'s per-size construction has
exactly `size` legs, which have pairwise-distinct players. -/
theorem part008_mem_legs (pool : List Edge) (size : ℕ) (r : ParlayRecommendation)
    (hr : r ∈ Part008.parlaysByLegCount pool size) :
    r.legs.length = size ∧ (r.legs.map Edge.player_id).Nodup := by
  have key : ∀ (b : ParlayRecommendation) (strategy : String),
      b ∈ (Part008.makeParlayCombos pool size).map
        (fun legs => Part008.buildRecommendation legs "edge") →
      ({ b with strategy := strategy } : ParlayRecommendation).legs.length = size ∧
        (({ b with strategy := strategy } : ParlayRecommendation).legs.map Edge.player_id).Nodup := by
    intro b strategy hb
    rcases List.mem_map.mp hb with ⟨c, hc, rfl⟩
    rcases makeParlayCombos_spec pool size c hc with ⟨hlen, _, hnd⟩
    exact ⟨hlen, hnd⟩
  simp only [Part008.parlaysByLegCount] at hr
  split at hr
  · simp at hr
  · split at hr
    · simp at hr
    · split at hr
      · rename_i bE bS bV hE hS hV
        have memE := (List.perm_insertionSort _ _).mem_iff.mp (head?_some_mem hE)
        have memS := (List.perm_insertionSort _ _).mem_iff.mp (head?_some_mem hS)
        have memV := (List.perm_insertionSort _ _).mem_iff.mp (head?_some_mem hV)
        rcases List.mem_cons.mp hr with rfl | hr'
        · exact key bE "edge" memE
        · rcases List.mem_cons.mp hr' with rfl | hr''
          · exact key bS "streak" memS
          · rcases List.mem_singleton.mp hr'' with rfl
            exact key bV "vegas" memV
      · simp at hr

/-- With a pool shorter than the requested size, `BetsPage.tsx`'s per-size
output is empty. -/
theorem betsTsx_pool_too_short (pool : List Edge) (size : ℕ) (h : pool.length < size) :
    BetsTsx.bestByLegCount pool size = [] := by
  simp only [BetsTsx.bestByLegCount]
  rw [if_pos h]

/-- Every recommendation produced by `BetsPage.tsx`'s per-size construction
has exactly `size` legs. -/
theorem betsTsx_mem_legs (pool : List Edge) (size : ℕ) (r : BetsTsx.ParlayRecommendation)
    (hr : r ∈ BetsTsx.bestByLegCount pool size) : r.legs.length = size := by
  simp only [BetsTsx.bestByLegCount] at hr
  split at hr
  · simp at hr
  · have hmem := (List.perm_insertionSort _ _).mem_iff.mp (List.mem_of_mem_take hr)
    rcases List.mem_map.mp hmem with ⟨c, hc, rfl⟩
    rw [betsTsx_toRec_legs]
    exact makeParlayCombo_len pool size c hc

/-- `part_009`'s `correlationBetween` computes exactly the spec's sum of
contributions. -/
theorem part009_corr_eq_spec (a b : Edge) :
    Part009.correlationBetween a b = specCorrelationBetween a b := by
  simp only [Part009.correlationBetween, specCorrelationBetween]
  split_ifs <;> tauto

/-- `part_008`'s `correlationBetween` computes exactly the spec's sum of
contributions. -/
theorem part008_corr_eq_spec (a b : Edge) :
    Part008.correlationBetween a b = specCorrelationBetween a b := by
  simp only [Part008.correlationBetween, specCorrelationBetween]
  split_ifs <;> tauto

set_option maxHeartbeats 1600000 in
/-- `BetsPage.tsx`'s `correlationBetween` is the spec's sum plus an extra
`+0.1` same-stat-type bonus. -/
theorem betsTsx_corr_eq_spec_plus (a b : Edge) :
    BetsTsx.correlationBetween a b
      = specCorrelationBetween a b + (if a.stat_type = b.stat_type then 1/10 else 0) := by
  simp only [BetsTsx.correlationBetween, specCorrelationBetween]
  split_ifs <;> tauto

/-- `pairSum` only depends on the pointwise values of its pair function. -/
theorem pairSum_congr (f g : Edge → Edge → ℚ) (h : ∀ a b, f a b = g a b) :
    ∀ legs, pairSum f legs = pairSum g legs := by
  intro legs
  induction legs with
  | nil => rfl
  | cons a rest ih =>
    rw [pairSum, pairSum, ih, show f a = g a from funext (h a)]

/-- `jsRound` is the identity on integers. -/
theorem jsRound_intCast (n : ℤ) : jsRound (n : ℚ) = n := by
  unfold jsRound
  refine Int.floor_eq_iff.mpr ⟨by linarith, by norm_num⟩

/-! Claim theorems. -/

/-- C5 (amended): the odds conversions are mutually inverse for integer
American odds `o ≥ 100` or `o ≤ −101`; the boundary `o = −100` (excluded by
the amendment) maps to the equivalent even-money price `+100` instead. -/
theorem americanToDecimal_decimalToAmerican_roundtrip (o : ℤ) (h : 100 ≤ o ∨ o ≤ -101) :
    decimalToAmerican (americanToDecimal (o : ℚ)) = o := by
  rcases h with h | h
  · have ho : (100 : ℚ) ≤ (o : ℚ) := by exact_mod_cast h
    have hpos : (0 : ℚ) < (o : ℚ) := by linarith
    rw [americanToDecimal, if_neg (by linarith), if_pos hpos]
    have hge : (1 : ℚ) ≤ (o : ℚ) / 100 := by
      rw [le_div_iff₀ (by norm_num : (0:ℚ) < 100)]
      linarith
    rw [decimalToAmerican, if_neg (by linarith), if_pos (by linarith)]
    have harg : (1 + (o : ℚ) / 100 - 1) * 100 = (o : ℚ) := by
      field_simp
    rw [harg, jsRound_intCast]
  · have ho : (o : ℚ) ≤ -101 := by exact_mod_cast h
    have hneg : (o : ℚ) < 0 := by linarith
    have habs : |(o : ℚ)| = -(o : ℚ) := abs_of_neg hneg
    rw [americanToDecimal, if_neg (by linarith), if_neg (by linarith), habs]
    have hpos : (0 : ℚ) < -(o : ℚ) := by linarith
    have hfrac_pos : (0 : ℚ) < 100 / -(o : ℚ) := by positivity
    have hfrac_lt : 100 / -(o : ℚ) < 1 := by
      rw [div_lt_one hpos]
      linarith
    rw [decimalToAmerican, if_neg (by linarith), if_neg (by linarith)]
    have hne : -(o : ℚ) ≠ 0 := hpos.ne'
    have harg : -100 / (1 + 100 / -(o : ℚ) - 1) = (o : ℚ) := by
      rw [show (1 : ℚ) + 100 / -(o : ℚ) - 1 = 100 / -(o : ℚ) by ring,
        div_eq_iff hfrac_pos.ne']
      field_simp
      ring
    rw [harg, jsRound_intCast]

/-- C1 (amended): player uniqueness holds for the `part_008` enumeration
(every combination has pairwise-distinct players) and for the `part_009`
greedy selection (`takeTopUniquePlayers` always returns pairwise-distinct
players, so all its strategy picks, custom parlays and the 4/4/2 synthesized
4-legger — which has exactly 4 unique-player legs and is omitted when
deduplication of the merged legs yields fewer than 4).  `BetsPage.tsx`'s
`makeParlayCombo`/`strategy442` (see the counterexample) do not deduplicate
players. -/
theorem parlay_player_uniqueness :
    (∀ (pool : List Edge) (size : ℕ), ∀ c ∈ Part008.makeParlayCombos pool size,
        (c.map Edge.player_id).Nodup)
    ∧ (∀ (pool : List Edge) (size : ℕ) (scorer : Edge → ℚ)
        (cA : Option (List Edge → Edge → Bool)),
        ((Part009.takeTopUniquePlayers pool size scorer cA).map Edge.player_id).Nodup)
    ∧ (∀ (twoLeg : List ParlayRecommendation) (en : Part009.StratEntry),
        en ∈ Part009.strategy442 twoLeg → en.label = "$2 - Combined 4 Legger" →
        en.parlay.legs.length = 4 ∧ (en.parlay.legs.map Edge.player_id).Nodup)
    ∧ (∀ (first second : ParlayRecommendation) (rest : List ParlayRecommendation),
        (Part009.takeTopUniquePlayers (first.legs ++ second.legs) 4
          (fun edge => jsOr edge.edge_pct 0)).length < 4 →
        Part009.strategy442 (first :: second :: rest) = []) := by
  refine ⟨?_, ?_, ?_, ?_⟩
  · exact fun pool size c hc => (makeParlayCombos_spec pool size c hc).2.2
  · exact fun pool size scorer cA => takeTop_nodup pool size scorer cA
  · intro twoLeg en hen hlab
    match twoLeg with
    | [] => simp [Part009.strategy442] at hen
    | [_] => simp [Part009.strategy442] at hen
    | first :: second :: rest =>
      simp only [Part009.strategy442] at hen
      split at hen
      · simp at hen
      · rename_i hlen
        rcases List.mem_cons.mp hen with rfl | hen'
        · have hlab' : ("$4 - 2 Legger (Edge%)" : String) = "$2 - Combined 4 Legger" := hlab
          exact absurd hlab' (by decide)
        · rcases List.mem_cons.mp hen' with rfl | hen''
          · have hlab' : ("$4 - 2 Legger (Streak)" : String) = "$2 - Combined 4 Legger" := hlab
            exact absurd hlab' (by decide)
          · rcases List.mem_singleton.mp hen'' with rfl
            have hle := takeTop_le_size (first.legs ++ second.legs) 4
              (fun edge => jsOr edge.edge_pct 0) none (by norm_num)
            refine ⟨?_, ?_⟩
            · rw [part009_buildRec_legs]
              omega
            · rw [part009_buildRec_legs]
              exact takeTop_nodup _ _ _ _
  · intro first second rest hlt
    simp only [Part009.strategy442]
    rw [if_pos hlt]

/-- C1 witness: on a concrete two-player pool the enumerated combination is a
member and its players are distinct. -/
theorem parlay_player_uniqueness_witness :
    [tm1, tm2] ∈ Part008.makeParlayCombos [tm1, tm2] 2 ∧
    (([tm1, tm2] : List Edge).map Edge.player_id).Nodup :=
  ⟨by decide, parlay_player_uniqueness.1 [tm1, tm2] 2 [tm1, tm2] (by decide)⟩

/-- C2 (amended): both parlay streak scorers read only `current_streak` and
`hit_rate` — the score is `hit_rate + current_streak × 5` in `part_008` and
`current_streak × 100 + hit_rate` in `part_009`, independent of `streak_type`
and of the leg's recommended side (no alignment restriction); the
alignment-gated streak (`hit` for OVER, `miss` for UNDER, otherwise 0) exists
only in the Dashboard's `getRecommendedSideStreak`. -/
theorem streak_scoring_ignores_alignment :
    (∀ (e : Edge) (s : Streak), e.streak = some s →
        s.current_streak ≠ 0 → s.hit_rate ≠ 0 →
        Part008.streakLegScore e = s.hit_rate + s.current_streak * 5
          ∧ Part009.streakScorer e = s.current_streak * 100 + s.hit_rate)
    ∧ (∀ (e : Edge) (s : Streak), e.streak = some s → e.recommendation = "OVER" →
        s.streak_type ≠ "hit" → Dashboard.getRecommendedSideStreak e = 0) := by
  constructor
  · intro e s hs hcs hhr
    constructor
    · simp [Part008.streakLegScore, hs, jsOr, hcs, hhr]
    · simp [Part009.streakScorer, hs, jsOr, hcs, hhr]
  · intro e s hs hrec hty
    simp [Dashboard.getRecommendedSideStreak, hs, hrec, hty]

/-- C2 witness: the concrete misaligned leg instantiates the score formulas. -/
theorem streak_scoring_ignores_alignment_witness :
    missStreakLeg.streak = some { current_streak := 5, hit_rate := 80, streak_type := "miss" } ∧
    Part008.streakLegScore missStreakLeg = 80 + 5 * 5 ∧
    Part009.streakScorer missStreakLeg = 5 * 100 + 80 := by
  refine ⟨by decide, ?_, ?_⟩
  · exact (streak_scoring_ignores_alignment.1 missStreakLeg
      { current_streak := 5, hit_rate := 80, streak_type := "miss" }
      (by decide) (by decide) (by decide)).1
  · exact (streak_scoring_ignores_alignment.1 missStreakLeg
      { current_streak := 5, hit_rate := 80, streak_type := "miss" }
      (by decide) (by decide) (by decide)).2

/-- C3 (amended): the 2-leg same-team exclusion holds for the `part_009`
greedy pipeline — a two-leg `takeTopUniquePlayers` pick under
`preventSameTeamInTwoLeg` always has distinct teams — while for any other
requested size the filter admits every candidate; a concrete 4-leg greedy
pick indeed contains two "BOS" legs.  The `part_008`/`BetsPage.tsx`
enumeration pipelines have no team constraint (see the counterexample). -/
theorem two_leg_same_team_exclusion :
    (∀ (pool : List Edge) (scorer : Edge → ℚ) (a b : Edge),
        Part009.takeTopUniquePlayers pool 2 scorer
          (some (Part009.preventSameTeamInTwoLeg 2)) = [a, b] →
        a.team_abbr ≠ b.team_abbr)
    ∧ (∀ (size : ℕ) (selected : List Edge) (candidate : Edge), size ≠ 2 →
        Part009.preventSameTeamInTwoLeg size selected candidate = true)
    ∧ (Part009.takeTopUniquePlayers fourPool 4 (fun edge => jsOr edge.edge_pct 0)
        (some (Part009.preventSameTeamInTwoLeg 4))).map Edge.team_abbr
      = ["BOS", "BOS", "LAL", "DEN"] := by
  refine ⟨?_, ?_, ?_⟩
  · exact fun pool scorer a b h => takeTop_two_team pool scorer a b h
  · intro size selected candidate h
    simp [Part009.preventSameTeamInTwoLeg, h]
  · decide

/-- C3 witness: a concrete two-team pool instantiates the exclusion. -/
theorem two_leg_same_team_exclusion_witness :
    Part009.takeTopUniquePlayers [tm1, sameStatB] 2 (fun _ => 0)
      (some (Part009.preventSameTeamInTwoLeg 2)) = [tm1, sameStatB] ∧
    tm1.team_abbr ≠ sameStatB.team_abbr :=
  ⟨by decide, two_leg_same_team_exclusion.1 [tm1, sameStatB] (fun _ => 0) tm1 sameStatB
    (by decide)⟩

/-- C4 (amended): the Parlay Pricer computes
`combinedOdds = decimalToAmerican (∏ americanToDecimal legOdds_i)` (raw
recommended-side odds defaulting to −110, or no-vig fair odds on request),
`impliedWinRate = ∏ max(p_i or-else 50, 1)/100` — where a missing or zero
recommended-side probability defaults to 50 before the 1% floor — and the
standard single-unit expected value for those two quantities. -/
theorem pricer_formulas (legs : List Edge) (strategy : String) (useNoVigOdds : Bool) :
    (Part009.buildRecommendation legs strategy useNoVigOdds).combinedOdds
      = decimalToAmerican ((legs.map fun leg =>
          americanToDecimal (if useNoVigOdds then (Part009.getNoVigOdds leg : ℚ)
            else getLegOdds leg)).prod)
    ∧ (Part009.buildRecommendation legs strategy useNoVigOdds).impliedWinRate
      = (legs.map fun leg => max (jsOr (recWinProb leg) 50) 1 / 100).prod
    ∧ (Part009.buildRecommendation legs strategy useNoVigOdds).expectedValue
      = (legs.map fun leg => max (jsOr (recWinProb leg) 50) 1 / 100).prod
        * ((legs.map fun leg =>
            americanToDecimal (if useNoVigOdds then (Part009.getNoVigOdds leg : ℚ)
              else getLegOdds leg)).prod - 1)
        - (1 - (legs.map fun leg => max (jsOr (recWinProb leg) 50) 1 / 100).prod) := by
  refine ⟨?_, ?_, ?_⟩
  · show decimalToAmerican (legs.foldl _ 1) = _
    rw [foldl_mul_eq_prod, one_mul]
  · show legs.foldl _ 1 = _
    rw [foldl_mul_eq_prod (fun leg => legWinFactor leg), one_mul]
    rfl
  · show legs.foldl (fun total leg => total * legWinFactor leg) 1
        * (legs.foldl _ 1 - 1) - (1 - legs.foldl (fun total leg => total * legWinFactor leg) 1)
      = _
    rw [foldl_mul_eq_prod (fun leg => legWinFactor leg),
      foldl_mul_eq_prod (fun leg =>
        americanToDecimal (if useNoVigOdds then (Part009.getNoVigOdds leg : ℚ)
          else getLegOdds leg)), one_mul, one_mul]
    rfl

/-- C6 (amended): the `part_008`/`part_009` `correlationBetween` computes
exactly the spec's contributions (+0.4 same team, +0.2 additionally for same
team and opponent, +0.3 assists/points, −0.1 rebounds/points, else 0), while
the `BetsPage.tsx` copy adds a further +0.1 whenever the two legs share a
stat type; in every variant the parlay's `correlationScore` is the plain
unnormalized sum of pairwise contributions over all leg pairs. -/
theorem correlation_model :
    (∀ a b, Part009.correlationBetween a b = specCorrelationBetween a b)
    ∧ (∀ a b, Part008.correlationBetween a b = specCorrelationBetween a b)
    ∧ (∀ a b, BetsTsx.correlationBetween a b
        = specCorrelationBetween a b + (if a.stat_type = b.stat_type then 1/10 else 0))
    ∧ (∀ (legs : List Edge) (strategy : String) (u : Bool),
        (Part009.buildRecommendation legs strategy u).correlationScore
          = pairSum specCorrelationBetween legs)
    ∧ (∀ legs : List Edge,
        (BetsTsx.toRecommendation legs).correlationScore
          = pairSum (fun a b => specCorrelationBetween a b
              + (if a.stat_type = b.stat_type then 1/10 else 0)) legs) := by
  refine ⟨part009_corr_eq_spec, part008_corr_eq_spec, betsTsx_corr_eq_spec_plus, ?_, ?_⟩
  · intro legs strategy u
    show pairSum Part009.correlationBetween legs = _
    exact pairSum_congr _ _ part009_corr_eq_spec legs
  · intro legs
    show pairSum BetsTsx.correlationBetween legs = _
    exact pairSum_congr _ _ betsTsx_corr_eq_spec_plus legs

/-- C7 (amended): with fewer distinct players than the requested size the
`part_008` and `part_009` constructions yield empty per-size outputs; the
`BetsPage.tsx` construction yields an empty output when the pool is shorter
than the requested size (only); and no variant ever produces a parlay with
fewer than `size` legs. -/
theorem pool_undersupply_yields_empty :
    (∀ (pool : List Edge) (size : ℕ),
        (pool.map Edge.player_id).toFinset.card < size →
        Part008.parlaysByLegCount pool size = [] ∧ Part009.parlaysByLegCount pool size = [])
    ∧ (∀ (pool : List Edge) (size : ℕ), pool.length < size →
        BetsTsx.bestByLegCount pool size = [])
    ∧ (∀ (pool : List Edge) (size : ℕ) (r : ParlayRecommendation),
        r ∈ Part008.parlaysByLegCount pool size → r.legs.length = size)
    ∧ (∀ (pool : List Edge) (size : ℕ) (r : ParlayRecommendation),
        r ∈ Part009.parlaysByLegCount pool size → r.legs.length = size)
    ∧ (∀ (pool : List Edge) (size : ℕ) (r : BetsTsx.ParlayRecommendation),
        r ∈ BetsTsx.bestByLegCount pool size → r.legs.length = size) := by
  refine ⟨?_, ?_, ?_, ?_, ?_⟩
  · exact fun pool size h => ⟨part008_pool_too_small pool size h,
      part009_pool_too_small pool size h⟩
  · exact betsTsx_pool_too_short
  · exact fun pool size r hr => (part008_mem_legs pool size r hr).1
  · exact fun pool size r hr => (part009_mem_legs pool size r hr).1
  · exact betsTsx_mem_legs

/-- C7 witness: a one-unique-player pool yields empty 2-leg outputs in the
deduplicating pipelines. -/
theorem pool_undersupply_yields_empty_witness :
    ([dupA1].map Edge.player_id).toFinset.card < 2 ∧
    Part008.parlaysByLegCount [dupA1] 2 = [] ∧ Part009.parlaysByLegCount [dupA1] 2 = [] :=
  ⟨by decide, pool_undersupply_yields_empty.1 [dupA1] 2 (by decide)⟩

/-- C8: ledger payouts are `+toWin`/`−stake`/`0`, the summary totals are the
plain sums of stakes and payouts, and the ROI is `pnl / totalStaked × 100`
with an exact `0` (no division) when nothing was staked. -/
theorem bankroll_ledger (bets : List TrackedParlay) (bankroll : ℚ) :
    (∀ stake toWin : ℚ, payout stake toWin .won = toWin ∧ payout stake toWin .lost = -stake
      ∧ payout stake toWin .pending = 0 ∧ payout stake toWin .push = 0)
    ∧ (Part009.bankrollSummary bets bankroll).totalStaked = (bets.map TrackedParlay.stake).sum
    ∧ (Part009.bankrollSummary bets bankroll).pnl
      = (bets.map fun b => payout b.stake b.toWin b.result).sum
    ∧ ((bets.map TrackedParlay.stake).sum = 0 → (Part009.bankrollSummary bets bankroll).roi = 0)
    ∧ ((bets.map TrackedParlay.stake).sum ≠ 0 →
      (Part009.bankrollSummary bets bankroll).roi
        = (bets.map fun b => payout b.stake b.toWin b.result).sum
          / (bets.map TrackedParlay.stake).sum * 100) := by
  have hts : (Part009.bankrollSummary bets bankroll).totalStaked
      = (bets.map TrackedParlay.stake).sum := by
    show bets.foldl (fun sum bet => sum + bet.stake) 0 = _
    rw [foldl_add_eq_sum (fun b => TrackedParlay.stake b), zero_add]
  have hpnl : (Part009.bankrollSummary bets bankroll).pnl
      = (bets.map fun b => payout b.stake b.toWin b.result).sum := by
    show bets.foldl (fun sum bet => sum + payout bet.stake bet.toWin bet.result) 0 = _
    rw [foldl_add_eq_sum (fun b : TrackedParlay => payout b.stake b.toWin b.result), zero_add]
  have hroi : (Part009.bankrollSummary bets bankroll).roi
      = if (Part009.bankrollSummary bets bankroll).totalStaked = 0 then 0
        else (Part009.bankrollSummary bets bankroll).pnl
          / (Part009.bankrollSummary bets bankroll).totalStaked * 100 := rfl
  refine ⟨fun stake toWin => ⟨rfl, rfl, rfl, rfl⟩, hts, hpnl, ?_, ?_⟩
  · intro h
    rw [hroi, hts, if_pos h]
  · intro h
    rw [hroi, hts, hpnl, if_neg h]

/-- C8 witness: one won parlay (stake 10, to-win 15) gives ROI `150`. -/
theorem bankroll_ledger_witness :
    ([wonBet].map TrackedParlay.stake).sum ≠ 0 ∧
    (Part009.bankrollSummary [wonBet] 100).roi
      = ([wonBet].map fun b => payout b.stake b.toWin b.result).sum
        / ([wonBet].map TrackedParlay.stake).sum * 100 ∧
    (Part009.bankrollSummary [wonBet] 100).roi = 150 :=
  ⟨by decide, (bankroll_ledger [wonBet] 100).2.2.2.2 (by decide), by decide⟩

/-- C9: the accuracy summarizer counts wins/losses/pushes by their
`bet_result`, and the win rate is `wins / (wins + losses) × 100` — pushes
excluded from the denominator — and exactly `0` (never undefined) when no bet
is graded, including for the empty list. -/
theorem accuracy_win_rate (bets : List AccuracyTsx.TrackedBet) :
    (AccuracyTsx.summarizeTrackedBets bets).total = bets.length
    ∧ (AccuracyTsx.summarizeTrackedBets bets).wins
      = bets.countP (fun b => b.bet_result == "win")
    ∧ (AccuracyTsx.summarizeTrackedBets bets).losses
      = bets.countP (fun b => b.bet_result == "loss")
    ∧ (AccuracyTsx.summarizeTrackedBets bets).pushes
      = bets.countP (fun b => b.bet_result == "push")
    ∧ ((AccuracyTsx.summarizeTrackedBets bets).wins
        + (AccuracyTsx.summarizeTrackedBets bets).losses = 0 →
      (AccuracyTsx.summarizeTrackedBets bets).winRate = 0)
    ∧ ((AccuracyTsx.summarizeTrackedBets bets).wins
        + (AccuracyTsx.summarizeTrackedBets bets).losses ≠ 0 →
      (AccuracyTsx.summarizeTrackedBets bets).winRate
        = ((AccuracyTsx.summarizeTrackedBets bets).wins : ℚ)
          / (((AccuracyTsx.summarizeTrackedBets bets).wins : ℚ)
            + ((AccuracyTsx.summarizeTrackedBets bets).losses : ℚ)) * 100) := by
  refine ⟨rfl, (List.countP_eq_length_filter _ _).symm, (List.countP_eq_length_filter _ _).symm,
    (List.countP_eq_length_filter _ _).symm, ?_, ?_⟩
  · intro h
    have h' : (bets.filter fun bet => bet.bet_result == "win").length
        + (bets.filter fun bet => bet.bet_result == "loss").length = 0 := h
    show (if 0 < (bets.filter fun bet => bet.bet_result == "win").length
        + (bets.filter fun bet => bet.bet_result == "loss").length then _ else (0 : ℚ)) = 0
    rw [if_neg]
    omega
  · intro h
    have hpos : 0 < (bets.filter fun bet => bet.bet_result == "win").length
        + (bets.filter fun bet => bet.bet_result == "loss").length := by
      have h' : (bets.filter fun bet => bet.bet_result == "win").length
          + (bets.filter fun bet => bet.bet_result == "loss").length ≠ 0 := h
      omega
    show (if 0 < (bets.filter fun bet => bet.bet_result == "win").length
        + (bets.filter fun bet => bet.bet_result == "loss").length
      then (((bets.filter fun bet => bet.bet_result == "win").length : ℚ)
        / (((bets.filter fun bet => bet.bet_result == "win").length
          + (bets.filter fun bet => bet.bet_result == "loss").length : ℕ) : ℚ)) * 100
      else (0 : ℚ))
      = ((bets.filter fun bet => bet.bet_result == "win").length : ℚ)
        / (((bets.filter fun bet => bet.bet_result == "win").length : ℚ)
          + ((bets.filter fun bet => bet.bet_result == "loss").length : ℚ)) * 100
    rw [if_pos hpos]
    push_cast
    ring

/-- C9 witness: the empty list is handled with a zero rate. -/
theorem accuracy_win_rate_witness :
    (AccuracyTsx.summarizeTrackedBets []).wins + (AccuracyTsx.summarizeTrackedBets []).losses = 0 ∧
    (AccuracyTsx.summarizeTrackedBets []).winRate = 0 :=
  ⟨by decide, (accuracy_win_rate []).2.2.2.2.1 (by decide)⟩

/-- C10: a leg whose recommended-side probability is absent or zero (the JS
falsy values; `NaN` takes the same `|| 50` branch) contributes the 50% default
factor `0.5` to the implied win rate, not the 1% floor; the `max(·, 1)` floor
fires exactly for present probabilities strictly between 0 and 1, and present
probabilities `≥ 1` pass through as `p / 100`. -/
theorem default_prob_factor :
    (∀ leg : Edge, recWinProb leg = none ∨ recWinProb leg = some 0 → legWinFactor leg = 1/2)
    ∧ (∀ (leg : Edge) (p : ℚ), recWinProb leg = some p → 0 < p → p < 1 →
        legWinFactor leg = 1/100)
    ∧ (∀ (leg : Edge) (p : ℚ), recWinProb leg = some p → 1 ≤ p → legWinFactor leg = p / 100)
    ∧ (∀ (legs : List Edge) (leg : Edge) (strategy : String) (u : Bool),
        recWinProb leg = none ∨ recWinProb leg = some 0 →
        (Part009.buildRecommendation (leg :: legs) strategy u).impliedWinRate
          = 1/2 * (Part009.buildRecommendation legs strategy u).impliedWinRate) := by
  have hdef : ∀ leg : Edge, recWinProb leg = none ∨ recWinProb leg = some 0 →
      legWinFactor leg = 1/2 := by
    intro leg h
    unfold legWinFactor
    rcases h with h | h <;> rw [h] <;> simp [jsOr] <;> norm_num
  refine ⟨hdef, ?_, ?_, ?_⟩
  · intro leg p h hp hp1
    unfold legWinFactor
    rw [h]
    simp only [jsOr, if_neg hp.ne']
    rw [max_eq_right (le_of_lt hp1)]
  · intro leg p h hp
    unfold legWinFactor
    rw [h]
    simp only [jsOr, if_neg (by linarith : ¬p = 0)]
    rw [max_eq_left hp]
  · intro legs leg strategy u h
    have hiwr : ∀ l : List Edge,
        (Part009.buildRecommendation l strategy u).impliedWinRate
          = (l.map legWinFactor).prod := by
      intro l
      show l.foldl _ 1 = _
      rw [foldl_mul_eq_prod legWinFactor, one_mul]
    rw [hiwr, hiwr, List.map_cons, List.prod_cons, hdef leg h]

/-- C10 witness: a leg with no probability fields at all gets the 0.5 factor,
and pushing it onto a parlay halves the implied win rate. -/
theorem default_prob_factor_witness :
    (recWinProb baseEdge = none ∨ recWinProb baseEdge = some 0) ∧
    legWinFactor baseEdge = 1/2 ∧
    (Part009.buildRecommendation [baseEdge] "edge" false).impliedWinRate
      = 1/2 * (Part009.buildRecommendation [] "edge" false).impliedWinRate :=
  ⟨Or.inl (by decide), default_prob_factor.1 baseEdge (Or.inl (by decide)),
    default_prob_factor.2.2.2 [] baseEdge "edge" false (Or.inl (by decide))⟩

/-- C5 witness: the amended roundtrip at the concrete favorite price −110 and
underdog price +250. -/
theorem americanToDecimal_decimalToAmerican_roundtrip_witness :
    ((100 : ℤ) ≤ 250 ∨ (250 : ℤ) ≤ -101) ∧
    decimalToAmerican (americanToDecimal ((250 : ℤ) : ℚ)) = 250 ∧
    ((100 : ℤ) ≤ -110 ∨ (-110 : ℤ) ≤ -101) ∧
    decimalToAmerican (americanToDecimal ((-110 : ℤ) : ℚ)) = -110 :=
  ⟨Or.inl (by decide), americanToDecimal_decimalToAmerican_roundtrip 250 (Or.inl (by decide)),
    Or.inr (by decide), americanToDecimal_decimalToAmerican_roundtrip (-110) (Or.inr (by decide))⟩
